import Mathlib

/-
Verification of the SSH monitor core (src/ssh_monitor.py) against its
natural-language specification.

The Python module is shallowly embedded:
  - the credential-line regular expression
      (\d{1,3}\.\d{1,3}\.\d{1,3}\.\d{1,3}), (\w+)/(\w+)
    applied with re.match is embedded as a backtracking matcher over a fixed
    token list (matchToks below): each quantifier tries its longest viable
    length first and retries shorter lengths when the continuation of the
    pattern fails, exactly as the Python engine does on this
    alternation-free pattern.  Character classes are modelled at ASCII
    (digits 0-9; word characters A-Z, a-z, 0-9, underscore).
  - ipaddress.ip_address applied to the regex group is embedded as the
    IPv4 checks of ipaddress._parse_octet (nonempty, at most three ASCII
    digits, no leading zero unless the octet is exactly 0, value at most
    255).  The IPv6 fallback of ip_address never accepts the matched text,
    which consists of digits and dots and therefore has no colon, so it is
    not modelled.
  - network effects are abstracted into a HostWorld oracle giving the
    outcome of the connection attempt and of each remote command channel;
    exceptions become Except values and the try/finally of
    get_commands_results becomes an explicit event trace in which the
    close of the paramiko client is one event.
  - the host-list file becomes its list of lines (an absent file is the
    error branch of get_hosts); ThreadPoolExecutor.map followed by list()
    becomes mapM in the Except monad, which like list() surfaces the first
    exception raised by a per-host check.
-/

/-! ## Character classes (ASCII model of the regex classes) -/

def isDigitChar (c : Char) : Bool := decide ('0' ≤ c) && decide (c ≤ '9')

def isWordChar (c : Char) : Bool := c.isAlpha || isDigitChar c || decide (c = '_')

def digitVal (c : Char) : Nat := c.toNat - '0'.toNat

/-- Numeric value of a decimal digit string, as int() reads it. -/
def digitsToNat (l : List Char) : Nat := l.foldl (fun a c => 10 * a + digitVal c) 0

/-! ## The compiled pattern of HostCredentials, as a token list

The class attribute pattern of HostCredentials is the concatenation of
four groups of one to three digits separated by literal dots, the
separator comma-space, a nonempty word group, a literal slash and a second
nonempty word group.  The two word groups and the four digit runs are kept
as separate captures here; the single ip group of the source is their
dot-joined concatenation. -/

inductive RTok
  | dig13
  | ch (c : Char)
  | wordPlus
deriving DecidableEq

/-- Length of the longest prefix of word characters: the span the greedy
word quantifier tries first. -/
def wordRun (s : List Char) : Nat := (s.takeWhile isWordChar).length

mutual

/-- Backtracking matcher for a token list at position zero of the input,
as re.match runs the compiled pattern: a literal consumes one equal
character, a digit quantifier tries three digits, then two, then one, a
word quantifier tries its whole run, then every shorter nonempty prefix;
a later failure backtracks into the previous quantifier.  The match does
not have to reach the end of the input.  Returns the captured group texts
in pattern order. -/
def matchToks : List RTok → List Char → Option (List (List Char))
  | [], _ => some []
  | .ch _ :: _, [] => none
  | .ch c :: ts, x :: s => if x = c then matchToks ts s else none
  | .dig13 :: ts, s => tryDig ts s 3
  | .wordPlus :: ts, s => tryWord ts s (wordRun s)
termination_by ts s => (s.length, ts.length, 0)
decreasing_by
· exact Prod.Lex.left _ _ (by simp)
· exact Prod.Lex.right _ (Prod.Lex.left _ _ (by simp))
· exact Prod.Lex.right _ (Prod.Lex.left _ _ (by simp))

/-- One descending pass of the digit quantifier: candidate lengths n, n-1,
..., 1; a candidate needs that many leading digits and a continuation
match on the remainder. -/
def tryDig : List RTok → List Char → Nat → Option (List (List Char))
  | _, _, 0 => none
  | ts, s, n + 1 =>
    if h : (s.take (n + 1)).length = n + 1 ∧ (s.take (n + 1)).all isDigitChar = true then
      match matchToks ts (s.drop (n + 1)) with
      | some gs => some (s.take (n + 1) :: gs)
      | none => tryDig ts s n
    else
      tryDig ts s n
termination_by ts s n => (s.length, ts.length, n)
decreasing_by
· apply Prod.Lex.left
  have hl : n + 1 ≤ s.length := by
    have h1 := h.1
    rw [List.length_take] at h1
    omega
  simp only [List.length_drop]
  omega
· exact Prod.Lex.right _ (Prod.Lex.right _ (by omega))
· exact Prod.Lex.right _ (Prod.Lex.right _ (by omega))

/-- One descending pass of the word quantifier: candidate lengths n, n-1,
..., 1 (callers start n at the length of the word run, so every candidate
prefix is made of word characters). -/
def tryWord : List RTok → List Char → Nat → Option (List (List Char))
  | _, _, 0 => none
  | ts, s, n + 1 =>
    match matchToks ts (s.drop (n + 1)) with
    | some gs => some (s.take (n + 1) :: gs)
    | none => tryWord ts s n
termination_by ts s n => (s.length, ts.length, n)
decreasing_by
· rcases Nat.lt_or_ge 0 s.length with hpos | hz
  · apply Prod.Lex.left
    simp only [List.length_drop]
    omega
  · have hs0 : s.length = 0 := by omega
    have : (s.drop (n + 1)).length = s.length := by
      simp only [List.length_drop]; omega
    rw [show (s.drop (n + 1)).length = s.length from this, hs0]
    exact Prod.Lex.right _ (Prod.Lex.right _ (by omega))
· exact Prod.Lex.right _ (Prod.Lex.right _ (by omega))

end

/-- The token form of the compiled class pattern of HostCredentials. -/
def hostPattern : List RTok :=
  [.dig13, .ch '.', .dig13, .ch '.', .dig13, .ch '.', .dig13,
   .ch ',', .ch ' ', .wordPlus, .ch '/', .wordPlus]

/-! ## ipaddress validation of the extracted address -/

/-- Splitting on a separator character, as str.split with one-character
separator: n separators give n+1 (possibly empty) pieces. -/
def splitOnChar (sep : Char) : List Char → List (List Char)
  | [] => [[]]
  | c :: rest =>
    if c = sep then [] :: splitOnChar sep rest
    else
      match splitOnChar sep rest with
      | [] => [[c]]
      | g :: gs => (c :: g) :: gs

/-- The per-octet checks of ipaddress._parse_octet. -/
def parseOctet (p : List Char) : Bool :=
  !p.isEmpty && decide (p.length ≤ 3) && p.all isDigitChar &&
    (p == ['0'] || p.head? != some '0') && decide (digitsToNat p ≤ 255)

/-- Whether ipaddress.ip_address accepts the text: four dot-separated
octets each passing the octet checks.  The IPv6 fallback is irrelevant for
the colon-free texts the regex extracts. -/
def isValidIPv4 (s : List Char) : Bool :=
  let parts := splitOnChar '.' s
  decide (parts.length = 4) && parts.all parseOctet

/-! ## HostCredentials -/

/-- Stand-in for the paramiko RSA key object loaded by
RSAKey.from_private_key_file: only its provenance matters here. -/
structure RSAKey where
  source_file : String
deriving DecidableEq

/-- Basic class to represent the credentials of a single host. -/
structure HostCredentials where
  ip_address : String
  username : String
  password : Option String
  private_key_file : Option String
  private_key : Option RSAKey
deriving DecidableEq

/-- The constructor body of HostCredentials: the private key is loaded
from the key file when one is given and is None otherwise. -/
def HostCredentials.init (ip_address username : String)
    (password : Option String := none) (private_key_file : Option String := none) :
    HostCredentials :=
  { ip_address := ip_address
    username := username
    password := password
    private_key_file := private_key_file
    private_key := private_key_file.map RSAKey.mk }

/-- get_host_credentials_from_line: match the compiled pattern at the
start of the line (re.match); on no match raise ValueError; unpack the
three groups (the four digit captures here concatenate to the single ip
group of the source); run ipaddress.ip_address over the extracted address
and raise ValueError when it is rejected; otherwise build the credentials
from address, username and password only. -/
def get_host_credentials_from_line (line : String) : Except String HostCredentials :=
  match matchToks hostPattern line.toList with
  | none => .error "Failed to match host credentials"
  | some [d1, d2, d3, d4, u, p] =>
    let ipChars := d1 ++ '.' :: d2 ++ '.' :: d3 ++ '.' :: d4
    if isValidIPv4 ipChars then
      .ok (HostCredentials.init ipChars.asString u.asString (some p.asString) none)
    else
      .error ("Invalid ip address " ++ ipChars.asString)
  | some _ => .error "Some of the credentials did not match"

/-! ## Commands and the SSH session -/

structure Command where
  command_name : String
  command : String
deriving DecidableEq

/-- The repr of a Command, used in the per-command error message. -/
def Command.reprStr (c : Command) : String :=
  "Command(" ++ c.command_name ++ ", " ++ c.command ++ ")"

def default_commands_list : List Command := [⟨"Storage", "df -h /"⟩]

/-- What the remote side does when one command channel is requested:
either the channel opens and yields decoded stdout and stderr texts, or
paramiko raises an SSHException with some message. -/
inductive ExecOutcome
  | opened (stdout stderr : String)
  | sshError (msg : String)
deriving DecidableEq

/-- What the transport does on the connection attempt: success,
AuthenticationException, socket.timeout, or any other transport fault
(socket errors, other SSHExceptions, ...). -/
inductive ConnectOutcome
  | ok
  | authError (msg : String)
  | timeoutErr (msg : String)
  | otherError (msg : String)
deriving DecidableEq

/-- The network oracle for one host: the outcome of connect and of each
command execution. -/
structure HostWorld where
  connect : ConnectOutcome
  exec : Command → ExecOutcome

/-- The state a per-host check carries: the bound host, the timeout and
the command list handed to the constructor (the default list when the
caller passes none; the deep copy the source takes of the shared default
list has no observable effect in this pure model). -/
structure SSHExecutor where
  host : HostCredentials
  timeout : Nat
  commands : List Command

def SSHExecutor.init (host : HostCredentials) (timeout : Nat := 5)
    (commands_list : Option (List Command) := none) : SSHExecutor :=
  { host := host, timeout := timeout
    commands := commands_list.getD default_commands_list }

/-- The exceptions connect can raise.  The source catches the
authentication case, logs it and re-raises it, so connect surfaces every
failure unchanged. -/
inductive ConnectException
  | auth (msg : String)
  | timeout (msg : String)
  | other (msg : String)
deriving DecidableEq

def SSHExecutor.connect (w : HostWorld) : Except ConnectException Unit :=
  match w.connect with
  | .ok => .ok ()
  | .authError m => .error (.auth m)
  | .timeoutErr m => .error (.timeout m)
  | .otherError m => .error (.other m)

/-- The value stored per command: output is the decoded stdout when the
channel opened and None when it failed; error is the decoded stderr or
the failure description. -/
structure CommandResult where
  output : Option String
  error : String
deriving DecidableEq

/-- execute_command: request the channel; on SSHException produce
output None and a descriptive error instead of raising; on success read
both streams fully. -/
def SSHExecutor.execute_command (w : HostWorld) (c : Command) : CommandResult :=
  match w.exec c with
  | .opened out err => { output := some out, error := err }
  | .sshError e => { output := none, error := "Failed to execute " ++ c.reprStr ++ ": " ++ e }

/-- Insertion into the results dict: assignment keeps the position of an
existing key and appends a new key, as a Python dict does. -/
def dictInsert (d : List (String × CommandResult)) (k : String) (v : CommandResult) :
    List (String × CommandResult) :=
  if d.any (fun p => p.1 = k) then
    d.map (fun p => if p.1 = k then (k, v) else p)
  else
    d ++ [(k, v)]

/-- Reading the results dict. -/
def dictGet (d : List (String × CommandResult)) (k : String) : Option CommandResult :=
  (d.find? (fun p => p.1 = k)).map (fun p => p.2)

/-- execute_commands: run each configured command in order, keying the
results dict by command name. -/
def SSHExecutor.execute_commands (ex : SSHExecutor) (w : HostWorld) :
    List (String × CommandResult) :=
  ex.commands.foldl (fun acc c => dictInsert acc c.command_name (SSHExecutor.execute_command w c)) []

/-- The shape get_commands_results returns: a status string and the
results dict. -/
structure CheckResult where
  status : String
  result : List (String × CommandResult)
deriving DecidableEq

/-- The observable actions of one per-host check, in order. -/
inductive SessionEvent
  | connectAttempt
  | execCommand (name : String)
  | closeClient
deriving DecidableEq

/-- get_commands_results: try connect; on AuthenticationException status
Authentication error with empty results, on socket.timeout status
Connection timout (sic) with empty results, on success run the commands
under status Success; any other exception is not caught and propagates
(the .error branch); the finally clause closes the client on every one of
these paths, which the event trace records. -/
def SSHExecutor.get_commands_results (ex : SSHExecutor) (w : HostWorld) :
    List SessionEvent × Except String CheckResult :=
  match SSHExecutor.connect w with
  | .error (.auth _) =>
    ([.connectAttempt, .closeClient], .ok { status := "Authentication error", result := [] })
  | .error (.timeout _) =>
    ([.connectAttempt, .closeClient], .ok { status := "Connection timout", result := [] })
  | .error (.other m) =>
    ([.connectAttempt, .closeClient], .error m)
  | .ok () =>
    (.connectAttempt :: (ex.commands.map (fun c => .execCommand c.command_name) ++ [.closeClient]),
     .ok { status := "Success", result := ex.execute_commands w })

/-! ## The host-list pipeline -/

/-- get_hosts: the lines of the host-list file; a missing file raises
ValueError, which is the only fatal error of a run.  The file is embedded
as its optional list of lines. -/
def get_hosts (file : Option (List String)) : Except String (List String) :=
  match file with
  | none => .error "file does not exist"
  | some lines => .ok lines

/-- str.startswith of Python, over the character lists: the comment
symbol text is a prefix of the line. -/
def strStartsWith (l pre : String) : Bool := pre.toList.isPrefixOf l.toList

/-- The generator body of get_active_hosts: skip every line that starts
with the comment symbol, yield every other line unchanged. -/
def activeLines (comment_symbol : String) : List String → List String
  | [] => []
  | l :: ls =>
    if strStartsWith l comment_symbol then activeLines comment_symbol ls
    else l :: activeLines comment_symbol ls

def get_active_hosts (file : Option (List String)) (comment_symbol : String := ";") :
    Except String (List String) :=
  (get_hosts file).map (activeLines comment_symbol)

/-- The generator body of get_host_credentials: parse each active line,
log and skip it on ValueError, yield the credentials otherwise. -/
def credsOfLines : List String → List HostCredentials
  | [] => []
  | l :: ls =>
    match get_host_credentials_from_line l with
    | .error _ => credsOfLines ls
    | .ok h => h :: credsOfLines ls

def get_host_credentials (file : Option (List String)) (comment_symbol : String := ";") :
    Except String (List HostCredentials) :=
  (get_active_hosts file comment_symbol).map credsOfLines

/-- connect_and_get_results: build an SSHExecutor over the host with the
default timeout and command set and run its check; the singleton dict
keyed by the host is the pair.  An uncaught exception of the check
propagates. -/
def connect_and_get_results (world : String → HostWorld) (host : HostCredentials) :
    Except String (HostCredentials × CheckResult) :=
  ((SSHExecutor.init host).get_commands_results (world host.ip_address)).2.map
    (fun res => (host, res))

/-- check_all_hosts_status: map the per-host check over the parsed
credentials with a worker pool and collect the results into a list; the
collection re-raises the first exception a check raised, exactly as
list() over the map of a ThreadPoolExecutor does.  The pool size bounds
scheduling only and has no effect on the collected value. -/
def check_all_hosts_status (world : String → HostWorld) (file : Option (List String))
    (pool_size : Nat := 10) : Except String (List (HostCredentials × CheckResult)) :=
  match get_host_credentials file ";" with
  | .error e => .error e
  | .ok hosts => hosts.mapM (connect_and_get_results world)

/-! ## Line shapes used in the statements -/

/-- A credential line assembled from four octet texts, a user text, a
password text and trailing content. -/
def buildLine (g1 g2 g3 g4 u p t : List Char) : List Char :=
  g1 ++ '.' :: (g2 ++ '.' :: (g3 ++ '.' :: (g4 ++ ',' :: ' ' :: (u ++ '/' :: (p ++ t)))))

/-- Digit groups joined by dots: the address text of a line. -/
def joinDots : List (List Char) → List Char
  | [] => []
  | [g] => g
  | g :: gs => g ++ '.' :: joinDots gs

/-- The canonical decimal text of an integer in [0, 255]: nonempty, all
digits, no leading zero unless it is exactly 0, and value at most 255.
The length bound is a consequence for such texts and is carried
explicitly. -/
def isOctetText (g : List Char) : Bool :=
  !g.isEmpty && g.all isDigitChar && decide (g.length ≤ 3) &&
    (g == ['0'] || g.head? != some '0') && decide (digitsToNat g ≤ 255)

/-- Distinct command names within one command set. -/
def nodupNames (cmds : List Command) : Prop := (cmds.map Command.command_name).Nodup

instance (cmds : List Command) : Decidable (nodupNames cmds) := by
  unfold nodupNames
  infer_instance

/-! ## Concrete worlds used by the closed statements -/

/-- A world in which every connection attempt fails with a transport
fault that is neither an authentication rejection nor a timeout. -/
def faultWorld : String → HostWorld :=
  fun _ => { connect := .otherError "Connection refused", exec := fun _ => .opened "" "" }

/-- A world in which every connection attempt is rejected at
authentication. -/
def authWorld : HostWorld :=
  { connect := .authError "Bad credentials", exec := fun _ => .opened "" "" }

/-- A world in which the connection succeeds but the channel for the
Storage command fails to open while every other channel works. -/
def execFailWorld : HostWorld :=
  { connect := .ok
    exec := fun c =>
      if c.command_name = "Storage" then .sshError "channel failure"
      else .opened "all good" "" }

/-! ## Unfolding lemmas for the matcher -/

theorem matchToks_nilPat (s : List Char) : matchToks [] s = some [] := by
  simp [matchToks]

theorem matchToks_ch_nil (c : Char) (ts : List RTok) : matchToks (.ch c :: ts) [] = none := by
  simp [matchToks]

theorem matchToks_ch_cons (c : Char) (ts : List RTok) (x : Char) (s : List Char) :
    matchToks (.ch c :: ts) (x :: s) = if x = c then matchToks ts s else none := by
  simp [matchToks]

theorem matchToks_dig (ts : List RTok) (s : List Char) :
    matchToks (.dig13 :: ts) s = tryDig ts s 3 := by
  simp [matchToks]

theorem matchToks_word (ts : List RTok) (s : List Char) :
    matchToks (.wordPlus :: ts) s = tryWord ts s (wordRun s) := by
  simp [matchToks]

theorem tryDig_zero (ts : List RTok) (s : List Char) : tryDig ts s 0 = none := by
  simp [tryDig]

theorem tryDig_succ (ts : List RTok) (s : List Char) (n : Nat) :
    tryDig ts s (n + 1) =
      if (s.take (n + 1)).length = n + 1 ∧ (s.take (n + 1)).all isDigitChar = true then
        match matchToks ts (s.drop (n + 1)) with
        | some gs => some (s.take (n + 1) :: gs)
        | none => tryDig ts s n
      else tryDig ts s n := by
  rw [tryDig]
  split <;> rfl

theorem tryWord_zero (ts : List RTok) (s : List Char) : tryWord ts s 0 = none := by
  simp [tryWord]

theorem tryWord_succ (ts : List RTok) (s : List Char) (n : Nat) :
    tryWord ts s (n + 1) =
      match matchToks ts (s.drop (n + 1)) with
      | some gs => some (s.take (n + 1) :: gs)
      | none => tryWord ts s n := by
  rw [tryWord]

/-! ## Step lemmas: how the matcher consumes one structured piece of input -/

theorem digit_ne (x c : Char) (hx : isDigitChar x = true) (hc : isDigitChar c = false) :
    x ≠ c := by
  intro he
  rw [he, hc] at hx
  exact Bool.false_ne_true hx

theorem word_ne (x c : Char) (hx : isWordChar x = true) (hc : isWordChar c = false) :
    x ≠ c := by
  intro he
  rw [he, hc] at hx
  exact Bool.false_ne_true hx

/-- A literal token fails on a character of the wrong class. -/
theorem matchToks_ch_ne (c x : Char) (ts : List RTok) (s : List Char) (h : x ≠ c) :
    matchToks (.ch c :: ts) (x :: s) = none := by
  rw [matchToks_ch_cons, if_neg h]

/-- The digit quantifier against a digit run followed by a non-digit (or
by nothing), when the next pattern token is a literal that is not a digit:
the quantifier can only take the whole run, and only when the run has
length one to three; every shorter candidate leaves a digit in front of
the literal and fails. -/
theorem dig_step (c : Char) (ts : List RTok) (ds rest : List Char)
    (hds : ds.all isDigitChar = true)
    (hrest : ∀ x, rest.head? = some x → isDigitChar x = false)
    (hc : isDigitChar c = false) :
    matchToks (.dig13 :: .ch c :: ts) (ds ++ rest) =
      if 1 ≤ ds.length ∧ ds.length ≤ 3 then
        (matchToks (.ch c :: ts) rest).map (fun gs => ds :: gs)
      else none := by
  rw [matchToks_dig]
  match ds, hds with
  | [], _ =>
    simp only [List.nil_append, List.length_nil]
    rw [if_neg (by omega)]
    have hfail : ∀ k, (rest.take k).length = k ∧ (rest.take k).all isDigitChar = true → k = 0 := by
      intro k hk
      by_contra hk0
      match rest, k, hk with
      | [], k + 1, hk => simp at hk
      | r :: rs, k + 1, hk =>
        have hr : isDigitChar r = false := hrest r rfl
        have := hk.2
        simp [List.all_cons, hr] at this
    rw [tryDig_succ, if_neg (fun hh => by have := hfail 3 hh; omega)]
    rw [tryDig_succ, if_neg (fun hh => by have := hfail 2 hh; omega)]
    rw [tryDig_succ, if_neg (fun hh => by have := hfail 1 hh; omega)]
    exact tryDig_zero _ _
  | [a], hds =>
    simp only [List.all_cons, List.all_nil, Bool.and_true] at hds
    have hfail : ∀ k, ((a :: rest).take (k + 2)).length = k + 2 ∧
        ((a :: rest).take (k + 2)).all isDigitChar = true → False := by
      intro k hk
      match rest, hk with
      | [], hk => simp at hk
      | r :: rs, hk =>
        have hr : isDigitChar r = false := hrest r rfl
        have := hk.2
        simp [List.all_cons, hr, hds] at this
    simp only [List.cons_append, List.nil_append]
    rw [tryDig_succ, if_neg (hfail 1)]
    rw [tryDig_succ, if_neg (hfail 0)]
    rw [tryDig_succ, if_pos (by simp [hds])]
    simp only [List.take_succ_cons, List.take_zero, List.drop_succ_cons, List.drop_zero,
      List.length_cons, List.length_nil]
    rw [if_pos (by omega)]
    cases hm : matchToks (.ch c :: ts) rest with
    | some gs => simp [hm]
    | none => simp [hm, tryDig_zero]
  | [a, b], hds =>
    simp only [List.all_cons, List.all_nil, Bool.and_true, Bool.and_eq_true] at hds
    obtain ⟨ha, hb⟩ := hds
    have hfail3 : ((a :: b :: rest).take 3).length = 3 ∧
        ((a :: b :: rest).take 3).all isDigitChar = true → False := by
      intro hk
      match rest, hk with
      | [], hk => simp at hk
      | r :: rs, hk =>
        have hr : isDigitChar r = false := hrest r rfl
        have := hk.2
        simp [List.all_cons, hr, ha, hb] at this
    simp only [List.cons_append, List.nil_append]
    rw [tryDig_succ, if_neg hfail3]
    rw [tryDig_succ, if_pos (by simp [ha, hb])]
    simp only [List.take_succ_cons, List.take_zero, List.drop_succ_cons, List.drop_zero,
      List.length_cons, List.length_nil]
    cases hm : matchToks (.ch c :: ts) rest with
    | some gs => rw [if_pos (by omega)]; simp [hm]
    | none =>
      rw [if_pos (by omega)]
      simp only [hm]
      rw [tryDig_succ, if_pos (by simp [ha])]
      simp only [List.take_succ_cons, List.take_zero, List.drop_succ_cons, List.drop_zero]
      rw [matchToks_ch_ne c b ts rest (digit_ne b c hb hc)]
      rw [tryDig_zero]
      simp
  | [a, b, d], hds =>
    simp only [List.all_cons, List.all_nil, Bool.and_true, Bool.and_eq_true] at hds
    obtain ⟨ha, hb, hd⟩ := hds
    simp only [List.cons_append, List.nil_append]
    rw [tryDig_succ, if_pos (by simp [ha, hb, hd])]
    simp only [List.take_succ_cons, List.take_zero, List.drop_succ_cons, List.drop_zero,
      List.length_cons, List.length_nil]
    cases hm : matchToks (.ch c :: ts) rest with
    | some gs => rw [if_pos (by omega)]; simp [hm]
    | none =>
      rw [if_pos (by omega)]
      simp only [hm]
      rw [tryDig_succ, if_pos (by simp [ha, hb])]
      simp only [List.take_succ_cons, List.take_zero, List.drop_succ_cons, List.drop_zero]
      rw [matchToks_ch_ne c d ts rest (digit_ne d c hd hc)]
      rw [tryDig_succ, if_pos (by simp [ha])]
      simp only [List.take_succ_cons, List.take_zero, List.drop_succ_cons, List.drop_zero]
      rw [matchToks_ch_ne c b ts (d :: rest) (digit_ne b c hb hc)]
      rw [tryDig_zero]
      simp
  | a :: b :: d :: e :: tl, hds =>
    simp only [List.all_cons, Bool.and_eq_true] at hds
    obtain ⟨ha, hb, hd, he, htl⟩ := hds
    simp only [List.cons_append, List.length_cons]
    rw [if_neg (by omega)]
    rw [tryDig_succ, if_pos (by simp [ha, hb, hd])]
    simp only [List.take_succ_cons, List.take_zero, List.drop_succ_cons, List.drop_zero]
    rw [matchToks_ch_ne c e ts (tl ++ rest) (digit_ne e c he hc)]
    rw [tryDig_succ, if_pos (by simp [ha, hb])]
    simp only [List.take_succ_cons, List.take_zero, List.drop_succ_cons, List.drop_zero]
    rw [matchToks_ch_ne c d ts (e :: (tl ++ rest)) (digit_ne d c hd hc)]
    rw [tryDig_succ, if_pos (by simp [ha])]
    simp only [List.take_succ_cons, List.take_zero, List.drop_succ_cons, List.drop_zero]
    rw [matchToks_ch_ne c b ts (d :: e :: (tl ++ rest)) (digit_ne b c hb hc)]
    exact tryDig_zero _ _

/-- The word run of a word string followed by a non-word boundary is the
whole word string. -/
theorem wordRun_append (u rest : List Char) (hu : u.all isWordChar = true)
    (hrest : ∀ x, rest.head? = some x → isWordChar x = false) :
    wordRun (u ++ rest) = u.length := by
  induction u with
  | nil =>
    simp only [List.nil_append, List.length_nil, wordRun]
    match rest with
    | [] => rfl
    | r :: rs =>
      rw [List.takeWhile_cons_of_neg (by simp [hrest r rfl])]
      rfl
  | cons a u ih =>
    simp only [List.all_cons, Bool.and_eq_true] at hu
    simp only [List.cons_append, wordRun, List.length_cons]
    rw [List.takeWhile_cons_of_pos hu.1]
    have := ih hu.2
    simp only [wordRun] at this
    simp [this]

/-- A descending word pass fails when every candidate fails. -/
theorem tryWord_none (ts : List RTok) (s : List Char) (n : Nat)
    (h : ∀ m, 1 ≤ m → m ≤ n → matchToks ts (s.drop m) = none) :
    tryWord ts s n = none := by
  induction n with
  | zero => exact tryWord_zero _ _
  | succ n ih =>
    rw [tryWord_succ, h (n + 1) (by omega) (by omega)]
    exact ih (fun m h1 h2 => h m h1 (by omega))

/-- The word quantifier against a nonempty word string followed by a
non-word boundary, when the next pattern token is a literal that is not a
word character: the whole run is taken when the continuation accepts the
remainder; every shorter candidate leaves a word character in front of
the literal and fails. -/
theorem word_step_ch (c : Char) (ts : List RTok) (u rest : List Char)
    (hu : u.all isWordChar = true) (hne : u ≠ [])
    (hrest : ∀ x, rest.head? = some x → isWordChar x = false)
    (hc : isWordChar c = false) :
    matchToks (.wordPlus :: .ch c :: ts) (u ++ rest) =
      (matchToks (.ch c :: ts) rest).map (fun gs => u :: gs) := by
  rw [matchToks_word, wordRun_append u rest hu hrest]
  obtain ⟨m, hm⟩ : ∃ m, u.length = m + 1 := by
    match u, hne with
    | a :: tl, _ => exact ⟨tl.length, by simp⟩
  rw [hm, tryWord_succ, ← hm, List.drop_left, List.take_left]
  cases hcont : matchToks (.ch c :: ts) rest with
  | some gs => simp
  | none =>
    simp only [Option.map_none]
    apply tryWord_none
    intro k h1 h2
    have hk : k < u.length := by omega
    have hdrop : (u ++ rest).drop k = u.drop k ++ rest := by
      rw [List.drop_append_eq_append_drop]
      have : k - u.length = 0 := by omega
      rw [this, List.drop_zero]
    have hget : u.drop k = u[k] :: u.drop (k + 1) := List.drop_eq_getElem_cons hk
    have hwk : isWordChar u[k] = true := by
      have : u[k] ∈ u := List.getElem_mem hk
      exact List.all_eq_true.mp hu _ this
    rw [hdrop, hget, List.cons_append]
    exact matchToks_ch_ne c u[k] ts (u.drop (k + 1) ++ rest) (word_ne u[k] c hwk hc)

/-- The final word quantifier of the pattern: the greedy first candidate,
the whole run, always succeeds because the empty remaining pattern
matches anything; trailing input after it is ignored. -/
theorem word_step_last (u rest : List Char)
    (hu : u.all isWordChar = true) (hne : u ≠ [])
    (hrest : ∀ x, rest.head? = some x → isWordChar x = false) :
    matchToks [.wordPlus] (u ++ rest) = some [u] := by
  rw [matchToks_word, wordRun_append u rest hu hrest]
  obtain ⟨m, hm⟩ : ∃ m, u.length = m + 1 := by
    match u, hne with
    | a :: tl, _ => exact ⟨tl.length, by simp⟩
  rw [hm, tryWord_succ, ← hm, List.drop_left, List.take_left]
  rw [matchToks_nilPat]


theorem isDigitChar_dot : isDigitChar '.' = false := by decide
theorem isDigitChar_comma : isDigitChar ',' = false := by decide
theorem isWordChar_slash : isWordChar '/' = false := by decide

/-- The whole pattern against a fully well-shaped line: every group is
captured exactly, trailing content after the password is ignored. -/
theorem matchHost_some (g1 g2 g3 g4 u p t : List Char)
    (hd1 : g1.all isDigitChar = true) (hl1 : 1 ≤ g1.length ∧ g1.length ≤ 3)
    (hd2 : g2.all isDigitChar = true) (hl2 : 1 ≤ g2.length ∧ g2.length ≤ 3)
    (hd3 : g3.all isDigitChar = true) (hl3 : 1 ≤ g3.length ∧ g3.length ≤ 3)
    (hd4 : g4.all isDigitChar = true) (hl4 : 1 ≤ g4.length ∧ g4.length ≤ 3)
    (hu : u.all isWordChar = true) (hune : u ≠ [])
    (hp : p.all isWordChar = true) (hpne : p ≠ [])
    (ht : ∀ x, t.head? = some x → isWordChar x = false) :
    matchToks hostPattern (buildLine g1 g2 g3 g4 u p t) = some [g1, g2, g3, g4, u, p] := by
  unfold hostPattern buildLine
  rw [dig_step '.' _ g1 _ hd1 (fun x hx => by simp at hx; rw [← hx]; rfl) isDigitChar_dot,
    if_pos hl1]
  rw [matchToks_ch_cons, if_pos rfl]
  rw [dig_step '.' _ g2 _ hd2 (fun x hx => by simp at hx; rw [← hx]; rfl) isDigitChar_dot,
    if_pos hl2]
  rw [matchToks_ch_cons, if_pos rfl]
  rw [dig_step '.' _ g3 _ hd3 (fun x hx => by simp at hx; rw [← hx]; rfl) isDigitChar_dot,
    if_pos hl3]
  rw [matchToks_ch_cons, if_pos rfl]
  rw [dig_step ',' _ g4 _ hd4 (fun x hx => by simp at hx; rw [← hx]; rfl) isDigitChar_comma,
    if_pos hl4]
  rw [matchToks_ch_cons, if_pos rfl]
  rw [matchToks_ch_cons, if_pos rfl]
  rw [word_step_ch '/' _ u _ hu hune (fun x hx => by simp at hx; rw [← hx]; rfl)
    isWordChar_slash]
  rw [matchToks_ch_cons, if_pos rfl]
  rw [word_step_last p t hp hpne ht]
  rfl

/-- The whole pattern fails on an address text whose dotted digit groups
do not number exactly four, or one of whose groups is longer than three
digits, whatever follows the comma-space separator: the digit quantifiers
can neither split a group nor absorb a separator. -/
theorem matchHost_none (gs : List (List Char)) (r : List Char)
    (hdig : ∀ g ∈ gs, g.all isDigitChar = true)
    (hbad : gs.length ≠ 4 ∨ ∃ g ∈ gs, 3 < g.length) :
    matchToks hostPattern (joinDots gs ++ ',' :: ' ' :: r) = none := by
  match gs, hbad with
  | [], _ =>
    unfold hostPattern
    rw [show joinDots [] ++ ',' :: ' ' :: r = ([] : List Char) ++ (',' :: ' ' :: r) from rfl]
    rw [dig_step '.' _ [] _ (by simp) (fun x hx => by simp at hx; rw [← hx]; rfl)
      isDigitChar_dot]
    simp
  | [g1], _ =>
    unfold hostPattern
    rw [show joinDots [g1] ++ ',' :: ' ' :: r = g1 ++ (',' :: ' ' :: r) from by simp [joinDots]]
    rw [dig_step '.' _ g1 _ (hdig g1 (by simp)) (fun x hx => by simp at hx; rw [← hx]; rfl)
      isDigitChar_dot]
    rw [matchToks_ch_ne '.' ',' _ _ (by decide)]
    simp
  | [g1, g2], _ =>
    unfold hostPattern
    rw [show joinDots [g1, g2] ++ ',' :: ' ' :: r = g1 ++ ('.' :: (g2 ++ (',' :: ' ' :: r)))
      from by simp [joinDots]]
    rw [dig_step '.' _ g1 _ (hdig g1 (by simp)) (fun x hx => by simp at hx; rw [← hx]; rfl)
      isDigitChar_dot]
    rw [matchToks_ch_cons, if_pos rfl]
    rw [dig_step '.' _ g2 _ (hdig g2 (by simp)) (fun x hx => by simp at hx; rw [← hx]; rfl)
      isDigitChar_dot]
    rw [matchToks_ch_ne '.' ',' _ _ (by decide)]
    simp
  | [g1, g2, g3], _ =>
    unfold hostPattern
    rw [show joinDots [g1, g2, g3] ++ ',' :: ' ' :: r =
      g1 ++ ('.' :: (g2 ++ ('.' :: (g3 ++ (',' :: ' ' :: r))))) from by simp [joinDots]]
    rw [dig_step '.' _ g1 _ (hdig g1 (by simp)) (fun x hx => by simp at hx; rw [← hx]; rfl)
      isDigitChar_dot]
    rw [matchToks_ch_cons, if_pos rfl]
    rw [dig_step '.' _ g2 _ (hdig g2 (by simp)) (fun x hx => by simp at hx; rw [← hx]; rfl)
      isDigitChar_dot]
    rw [matchToks_ch_cons, if_pos rfl]
    rw [dig_step '.' _ g3 _ (hdig g3 (by simp)) (fun x hx => by simp at hx; rw [← hx]; rfl)
      isDigitChar_dot]
    rw [matchToks_ch_ne '.' ',' _ _ (by decide)]
    simp
  | [g1, g2, g3, g4], hbad =>
    have hlong : ∃ g ∈ [g1, g2, g3, g4], 3 < g.length := by
      rcases hbad with h | h
      · simp at h
      · exact h
    unfold hostPattern
    rw [show joinDots [g1, g2, g3, g4] ++ ',' :: ' ' :: r =
      g1 ++ ('.' :: (g2 ++ ('.' :: (g3 ++ ('.' :: (g4 ++ (',' :: ' ' :: r))))))) from by
      simp [joinDots]]
    rw [dig_step '.' _ g1 _ (hdig g1 (by simp)) (fun x hx => by simp at hx; rw [← hx]; rfl)
      isDigitChar_dot]
    rw [matchToks_ch_cons, if_pos rfl]
    rw [dig_step '.' _ g2 _ (hdig g2 (by simp)) (fun x hx => by simp at hx; rw [← hx]; rfl)
      isDigitChar_dot]
    rw [matchToks_ch_cons, if_pos rfl]
    rw [dig_step '.' _ g3 _ (hdig g3 (by simp)) (fun x hx => by simp at hx; rw [← hx]; rfl)
      isDigitChar_dot]
    rw [matchToks_ch_cons, if_pos rfl]
    rw [dig_step ',' _ g4 _ (hdig g4 (by simp)) (fun x hx => by simp at hx; rw [← hx]; rfl)
      isDigitChar_comma]
    rcases hlong with ⟨g, hg, hlen⟩
    simp only [List.mem_cons, List.not_mem_nil, or_false] at hg
    rcases hg with hg | hg | hg | hg
    · rw [hg] at hlen
      rw [if_neg (show ¬(1 ≤ g1.length ∧ g1.length ≤ 3) from by omega)]
    · rw [hg] at hlen
      rw [if_neg (show ¬(1 ≤ g2.length ∧ g2.length ≤ 3) from by omega)]
      simp
    · rw [hg] at hlen
      rw [if_neg (show ¬(1 ≤ g3.length ∧ g3.length ≤ 3) from by omega)]
      simp
    · rw [hg] at hlen
      rw [if_neg (show ¬(1 ≤ g4.length ∧ g4.length ≤ 3) from by omega)]
      simp
  | g1 :: g2 :: g3 :: g4 :: g5 :: gtl, _ =>
    unfold hostPattern
    rw [show joinDots (g1 :: g2 :: g3 :: g4 :: g5 :: gtl) ++ ',' :: ' ' :: r =
      g1 ++ ('.' :: (g2 ++ ('.' :: (g3 ++ ('.' :: (g4 ++
        ('.' :: (joinDots (g5 :: gtl) ++ ',' :: ' ' :: r)))))))) from by
      show (g1 ++ '.' :: (g2 ++ '.' :: (g3 ++ '.' :: (g4 ++ '.' :: joinDots (g5 :: gtl))))) ++
        ',' :: ' ' :: r = _
      simp]
    rw [dig_step '.' _ g1 _ (hdig g1 (by simp)) (fun x hx => by simp at hx; rw [← hx]; rfl)
      isDigitChar_dot]
    rw [matchToks_ch_cons, if_pos rfl]
    rw [dig_step '.' _ g2 _ (hdig g2 (by simp)) (fun x hx => by simp at hx; rw [← hx]; rfl)
      isDigitChar_dot]
    rw [matchToks_ch_cons, if_pos rfl]
    rw [dig_step '.' _ g3 _ (hdig g3 (by simp)) (fun x hx => by simp at hx; rw [← hx]; rfl)
      isDigitChar_dot]
    rw [matchToks_ch_cons, if_pos rfl]
    rw [dig_step ',' _ g4 _ (hdig g4 (by simp)) (fun x hx => by simp at hx; rw [← hx]; rfl)
      isDigitChar_comma]
    rw [matchToks_ch_ne ',' '.' _ _ (by decide)]
    simp

/-! ## The second validation pass over the extracted address -/

theorem splitOnChar_sep_free (sep : Char) (g : List Char)
    (h : ∀ c ∈ g, c ≠ sep) : splitOnChar sep g = [g] := by
  induction g with
  | nil => rfl
  | cons a g ih =>
    have ha : a ≠ sep := h a (by simp)
    rw [splitOnChar, if_neg ha, ih (fun c hc => h c (by simp [hc]))]

theorem splitOnChar_append (sep : Char) (g rest : List Char)
    (h : ∀ c ∈ g, c ≠ sep) :
    splitOnChar sep (g ++ sep :: rest) = g :: splitOnChar sep rest := by
  induction g with
  | nil =>
    simp only [List.nil_append]
    rw [splitOnChar, if_pos rfl]
  | cons a g ih =>
    have ha : a ≠ sep := h a (by simp)
    simp only [List.cons_append]
    rw [splitOnChar, if_neg ha, ih (fun c hc => h c (by simp [hc]))]

theorem digit_ne_dot (c : Char) (h : isDigitChar c = true) : c ≠ '.' :=
  digit_ne c '.' h isDigitChar_dot

/-- Splitting the reassembled address on dots recovers the four digit
groups. -/
theorem splitOnChar_ip (g1 g2 g3 g4 : List Char)
    (h1 : g1.all isDigitChar = true) (h2 : g2.all isDigitChar = true)
    (h3 : g3.all isDigitChar = true) (h4 : g4.all isDigitChar = true) :
    splitOnChar '.' (g1 ++ '.' :: g2 ++ '.' :: g3 ++ '.' :: g4) = [g1, g2, g3, g4] := by
  have free : ∀ g : List Char, g.all isDigitChar = true → ∀ c ∈ g, c ≠ '.' := by
    intro g hg c hc
    exact digit_ne_dot c (List.all_eq_true.mp hg c hc)
  rw [show g1 ++ '.' :: g2 ++ '.' :: g3 ++ '.' :: g4 =
    g1 ++ '.' :: (g2 ++ '.' :: (g3 ++ '.' :: g4)) from by simp]
  rw [splitOnChar_append '.' g1 _ (free g1 h1)]
  rw [splitOnChar_append '.' g2 _ (free g2 h2)]
  rw [splitOnChar_append '.' g3 _ (free g3 h3)]
  rw [splitOnChar_sep_free '.' g4 (free g4 h4)]


theorem parseOctet_of_octetText (g : List Char) (h : isOctetText g = true) :
    parseOctet g = true := by
  simp only [isOctetText, Bool.and_eq_true] at h
  simp only [parseOctet, Bool.and_eq_true]
  exact ⟨⟨⟨⟨h.1.1.1.1, h.1.1.2⟩, h.1.1.1.2⟩, h.1.2⟩, h.2⟩

theorem isValidIPv4_of_octets (g1 g2 g3 g4 : List Char)
    (h1 : isOctetText g1 = true) (h2 : isOctetText g2 = true)
    (h3 : isOctetText g3 = true) (h4 : isOctetText g4 = true) :
    isValidIPv4 (g1 ++ '.' :: g2 ++ '.' :: g3 ++ '.' :: g4) = true := by
  have hd : ∀ g : List Char, isOctetText g = true → g.all isDigitChar = true := by
    intro g hg
    simp only [isOctetText, Bool.and_eq_true] at hg
    exact hg.1.1.1.2
  unfold isValidIPv4
  rw [splitOnChar_ip g1 g2 g3 g4 (hd g1 h1) (hd g2 h2) (hd g3 h3) (hd g4 h4)]
  simp [parseOctet_of_octetText g1 h1, parseOctet_of_octetText g2 h2,
    parseOctet_of_octetText g3 h3, parseOctet_of_octetText g4 h4]

theorem isValidIPv4_false_of_big (g1 g2 g3 g4 : List Char)
    (hdig : ∀ g ∈ [g1, g2, g3, g4], g.all isDigitChar = true)
    (hbig : ∃ g ∈ [g1, g2, g3, g4], 255 < digitsToNat g) :
    isValidIPv4 (g1 ++ '.' :: g2 ++ '.' :: g3 ++ '.' :: g4) = false := by
  unfold isValidIPv4
  rw [splitOnChar_ip g1 g2 g3 g4 (hdig g1 (by simp)) (hdig g2 (by simp)) (hdig g3 (by simp))
    (hdig g4 (by simp))]
  rcases hbig with ⟨g, hg, hbig⟩
  have hpo : parseOctet g = false := by
    simp only [parseOctet]
    have : decide (digitsToNat g ≤ 255) = false := by
      simp only [decide_eq_false_iff_not]
      omega
    simp [this]
  simp only [List.mem_cons, List.not_mem_nil, or_false] at hg
  simp only [List.all_cons, List.all_nil, Bool.and_true]
  rcases hg with hg | hg | hg | hg
  all_goals rw [← hg, hpo]
  all_goals simp

/-! ## Parse-level characterizations -/

theorem toList_asString (l : List Char) : (List.asString l).toList = l := rfl

theorem octetText_shape (g : List Char) (h : isOctetText g = true) :
    g.all isDigitChar = true ∧ 1 ≤ g.length ∧ g.length ≤ 3 := by
  simp only [isOctetText, Bool.and_eq_true, decide_eq_true_eq] at h
  refine ⟨h.1.1.1.2, ?_, h.1.1.2⟩
  have := h.1.1.1.1
  simp only [Bool.not_eq_true'] at this
  match g, this with
  | a :: g, _ => simp

/-- Parsing a fully well-shaped line succeeds, returning the credentials
built from the reassembled address, the user text and the password text;
the trailing content plays no part. -/
theorem parse_build_ok (g1 g2 g3 g4 u p t : List Char)
    (h1 : isOctetText g1 = true) (h2 : isOctetText g2 = true)
    (h3 : isOctetText g3 = true) (h4 : isOctetText g4 = true)
    (hu : u.all isWordChar = true) (hune : u ≠ [])
    (hp : p.all isWordChar = true) (hpne : p ≠ [])
    (ht : ∀ x, t.head? = some x → isWordChar x = false) :
    get_host_credentials_from_line (buildLine g1 g2 g3 g4 u p t).asString =
      .ok (HostCredentials.init (g1 ++ '.' :: g2 ++ '.' :: g3 ++ '.' :: g4).asString
        u.asString (some p.asString) none) := by
  obtain ⟨hd1, hl1⟩ := octetText_shape g1 h1
  obtain ⟨hd2, hl2⟩ := octetText_shape g2 h2
  obtain ⟨hd3, hl3⟩ := octetText_shape g3 h3
  obtain ⟨hd4, hl4⟩ := octetText_shape g4 h4
  unfold get_host_credentials_from_line
  rw [toList_asString,
    matchHost_some g1 g2 g3 g4 u p t hd1 hl1 hd2 hl2 hd3 hl3 hd4 hl4 hu hune hp hpne ht]
  simp only []
  rw [if_pos (isValidIPv4_of_octets g1 g2 g3 g4 h1 h2 h3 h4)]

/-- Parsing a line whose address has four short digit groups with one
group above 255 reaches the second validation pass and fails there. -/
theorem parse_big_octet_err (g1 g2 g3 g4 u p : List Char)
    (hdig : ∀ g ∈ [g1, g2, g3, g4], g.all isDigitChar = true ∧ 1 ≤ g.length ∧ g.length ≤ 3)
    (hu : u.all isWordChar = true) (hune : u ≠ [])
    (hp : p.all isWordChar = true) (hpne : p ≠ [])
    (hbig : ∃ g ∈ [g1, g2, g3, g4], 255 < digitsToNat g) :
    get_host_credentials_from_line (buildLine g1 g2 g3 g4 u p []).asString =
      .error ("Invalid ip address " ++
        (g1 ++ '.' :: g2 ++ '.' :: g3 ++ '.' :: g4).asString) := by
  unfold get_host_credentials_from_line
  rw [toList_asString,
    matchHost_some g1 g2 g3 g4 u p [] (hdig g1 (by simp)).1 (hdig g1 (by simp)).2
      (hdig g2 (by simp)).1 (hdig g2 (by simp)).2 (hdig g3 (by simp)).1 (hdig g3 (by simp)).2
      (hdig g4 (by simp)).1 (hdig g4 (by simp)).2 hu hune hp hpne (fun x hx => by simp at hx)]
  simp only []
  rw [if_neg (by
    rw [isValidIPv4_false_of_big g1 g2 g3 g4 (fun g hg => (hdig g hg).1) hbig]
    simp)]

/-- Parsing a line whose address does not have exactly four dotted digit
groups, or has an overlong group, fails at the pattern match. -/
theorem parse_join_err (gs : List (List Char)) (r : List Char)
    (hdig : ∀ g ∈ gs, g.all isDigitChar = true)
    (hbad : gs.length ≠ 4 ∨ ∃ g ∈ gs, 3 < g.length) :
    get_host_credentials_from_line (joinDots gs ++ ',' :: ' ' :: r).asString =
      .error "Failed to match host credentials" := by
  unfold get_host_credentials_from_line
  rw [toList_asString, matchHost_none gs r hdig hbad]

/-! ## Helper lemmas about command execution and the pipeline -/


theorem dictInsert_new (d : List (String × CommandResult)) (k : String) (v : CommandResult)
    (h : ∀ q ∈ d, q.1 ≠ k) : dictInsert d k v = d ++ [(k, v)] := by
  unfold dictInsert
  rw [if_neg]
  intro hany
  simp only [List.any_eq_true, decide_eq_true_eq] at hany
  obtain ⟨q, hq, he⟩ := hany
  exact h q hq he

/-- Under distinct names the results dict is the in-order list of
name-result pairs. -/
theorem execute_commands_map (w : HostWorld) (host : HostCredentials) (timeout : Nat)
    (cmds : List Command) (hnd : nodupNames cmds) :
    SSHExecutor.execute_commands ⟨host, timeout, cmds⟩ w =
      cmds.map (fun c => (c.command_name, SSHExecutor.execute_command w c)) := by
  unfold SSHExecutor.execute_commands
  simp only []
  suffices h : ∀ (cs : List Command) (acc : List (String × CommandResult)),
      (cs.map Command.command_name).Nodup →
      (∀ q ∈ acc, ∀ c ∈ cs, q.1 ≠ c.command_name) →
      cs.foldl (fun acc c => dictInsert acc c.command_name (SSHExecutor.execute_command w c)) acc =
        acc ++ cs.map (fun c => (c.command_name, SSHExecutor.execute_command w c)) by
    have := h cmds [] hnd (by simp)
    simpa using this
  intro cs
  induction cs with
  | nil => intro acc _ _; simp
  | cons c cs ih =>
    intro acc hnd hacc
    simp only [List.foldl_cons, List.map_cons]
    rw [dictInsert_new acc c.command_name _ (fun q hq => hacc q hq c (by simp))]
    rw [ih (acc ++ [(c.command_name, SSHExecutor.execute_command w c)])
      (by simp only [List.map_cons, List.nodup_cons] at hnd; exact hnd.2)
      ?_]
    · simp
    · intro q hq d hd
      rcases List.mem_append.mp hq with hq | hq
      · exact hacc q hq d (by simp [hd])
      · simp only [List.mem_singleton] at hq
        rw [hq]
        simp only [List.map_cons, List.nodup_cons] at hnd
        intro he
        have he2 : c.command_name = d.command_name := he
        exact hnd.1 (by rw [he2]; exact List.mem_map_of_mem Command.command_name hd)

theorem dictGet_map_of_mem (w : HostWorld) (cmds : List Command) (c : Command)
    (hnd : nodupNames cmds) (hc : c ∈ cmds) :
    dictGet (cmds.map (fun d => (d.command_name, SSHExecutor.execute_command w d)))
      c.command_name = some (SSHExecutor.execute_command w c) := by
  induction cmds with
  | nil => simp at hc
  | cons d cmds ih =>
    simp only [List.map_cons, dictGet, List.find?]
    by_cases he : d.command_name = c.command_name
    · have hdc : d = c := by
        rcases List.mem_cons.mp hc with h | h
        · exact h.symm
        · exfalso
          simp only [nodupNames, List.map_cons, List.nodup_cons] at hnd
          exact hnd.1 (he ▸ List.mem_map_of_mem Command.command_name h)
      rw [hdc]
      simp
    · rw [show ((d.command_name = c.command_name : Bool) : Bool) = false from by
        simp [he]]
      have hc2 : c ∈ cmds := by
        rcases List.mem_cons.mp hc with h | h
        · exact absurd (h ▸ rfl) he
        · exact h
      have hnd2 : nodupNames cmds := by
        simp only [nodupNames, List.map_cons, List.nodup_cons] at hnd
        exact hnd.2
      have := ih hnd2 hc2
      simp only [dictGet] at this
      exact this

/-- The active-line filter is exactly a filter on the comment prefix. -/
theorem activeLines_eq_filter (c : String) (lines : List String) :
    activeLines c lines = lines.filter (fun l => !strStartsWith l c) := by
  induction lines with
  | nil => rfl
  | cons l ls ih =>
    by_cases hl : strStartsWith l c
    · rw [activeLines, if_pos hl, ih, List.filter_cons]
      simp [hl]
    · rw [activeLines, if_neg hl, ih, List.filter_cons]
      simp [hl]

theorem credsOfLines_append (ls1 ls2 : List String) :
    credsOfLines (ls1 ++ ls2) = credsOfLines ls1 ++ credsOfLines ls2 := by
  induction ls1 with
  | nil => simp [credsOfLines]
  | cons l ls ih =>
    simp only [List.cons_append, credsOfLines]
    cases get_host_credentials_from_line l with
    | error e => exact ih
    | ok h => simp [ih]

theorem activeLines_append (c : String) (ls1 ls2 : List String) :
    activeLines c (ls1 ++ ls2) = activeLines c ls1 ++ activeLines c ls2 := by
  rw [activeLines_eq_filter, activeLines_eq_filter, activeLines_eq_filter, List.filter_append]

/-- A line that fails to parse contributes nothing to the credential
stream, wherever it sits. -/
theorem creds_skip_bad (pre post : List String) (bad : String) (c : String)
    (hbad : ∀ h, get_host_credentials_from_line bad ≠ .ok h) :
    credsOfLines (activeLines c (pre ++ bad :: post)) =
      credsOfLines (activeLines c pre) ++ credsOfLines (activeLines c post) := by
  rw [activeLines_append, credsOfLines_append]
  congr 1
  show credsOfLines (activeLines c ([bad] ++ post)) = _
  rw [activeLines_append, credsOfLines_append]
  have hsingle : credsOfLines (activeLines c [bad]) = [] := by
    by_cases hc : strStartsWith bad c
    · rw [show activeLines c [bad] = [] from by rw [activeLines, if_pos hc]; rfl]
      rfl
    · rw [show activeLines c [bad] = [bad] from by rw [activeLines, if_neg hc]; rfl]
      rw [credsOfLines]
      cases hb : get_host_credentials_from_line bad with
      | error e => rfl
      | ok h => exact absurd hb (hbad h)
  rw [hsingle]
  rfl

/-! ## Concrete parses used by the closed statements -/

theorem parse_line_bob :
    get_host_credentials_from_line "10.0.0.1, bob/secret" =
      .ok (HostCredentials.init "10.0.0.1" "bob" (some "secret") none) := by
  have hline : "10.0.0.1, bob/secret" =
      (buildLine ['1', '0'] ['0'] ['0'] ['1'] ['b', 'o', 'b']
        ['s', 'e', 'c', 'r', 'e', 't'] []).asString := by rfl
  rw [hline, parse_build_ok ['1', '0'] ['0'] ['0'] ['1'] ['b', 'o', 'b']
    ['s', 'e', 'c', 'r', 'e', 't'] [] (by decide) (by decide) (by decide) (by decide)
    (by decide) (by decide) (by decide) (by decide) (fun x hx => by simp at hx)]
  rfl

theorem parse_line_alice :
    get_host_credentials_from_line "10.0.0.2, alice/pw" =
      .ok (HostCredentials.init "10.0.0.2" "alice" (some "pw") none) := by
  have hline : "10.0.0.2, alice/pw" =
      (buildLine ['1', '0'] ['0'] ['0'] ['2'] ['a', 'l', 'i', 'c', 'e']
        ['p', 'w'] []).asString := by rfl
  rw [hline, parse_build_ok ['1', '0'] ['0'] ['0'] ['2'] ['a', 'l', 'i', 'c', 'e']
    ['p', 'w'] [] (by decide) (by decide) (by decide) (by decide)
    (by decide) (by decide) (by decide) (by decide) (fun x hx => by simp at hx)]
  rfl

theorem parse_line_notahost :
    get_host_credentials_from_line "not-a-host-line" =
      .error "Failed to match host credentials" := by
  unfold get_host_credentials_from_line hostPattern
  rw [show String.toList "not-a-host-line" =
    [] ++ ('n' :: "ot-a-host-line".toList) from rfl]
  rw [dig_step '.' _ [] _ (by decide) (fun x hx => by simp at hx; rw [← hx]; rfl)
    isDigitChar_dot]
  simp

/-! ## The claims -/

theorem string_append_data_ne (s t : String) (h : s.data ≠ []) : (s ++ t).data ≠ [] := by
  rw [String.data_append]
  intro he
  exact h (List.append_eq_nil.mp he).1

theorem string_ne_empty_of_data (s : String) (h : s.data ≠ []) : s ≠ "" := by
  intro he
  rw [he] at h
  exact h rfl

/-- C1 counterexample: a batch with one parsed host whose connection
attempt raises a transport fault that is neither an authentication
rejection nor a timeout does not record the fault as the host status and
does not run to completion; collecting the results re-raises the fault. -/
theorem c1_counterexample :
    check_all_hosts_status faultWorld (some ["10.0.0.1, bob/secret"]) =
      .error "Connection refused" := by
  unfold check_all_hosts_status
  have h1 : get_host_credentials (some ["10.0.0.1, bob/secret"]) ";" =
      .ok [HostCredentials.init "10.0.0.1" "bob" (some "secret") none] := by
    unfold get_host_credentials get_active_hosts get_hosts
    simp only [Except.map]
    rw [show activeLines ";" ["10.0.0.1, bob/secret"] = ["10.0.0.1, bob/secret"] from by
      rw [activeLines, if_neg (by decide)]
      rfl]
    simp only [credsOfLines, parse_line_bob]
  rw [h1]
  rfl

/-- C1 amended: for every host whose connection attempt raises a
transport fault other than an authentication rejection or a timeout, the
per-host check does not record the fault as a status: the session is
still closed (exactly one close event in the trace), but the fault
propagates out of get_commands_results, so the batch collection fails
with it instead of continuing to completion. -/
theorem c1_theorem (ex : SSHExecutor) (w : HostWorld) (e : String)
    (h : w.connect = .otherError e) :
    (ex.get_commands_results w).2 = .error e ∧
    (ex.get_commands_results w).1.count .closeClient = 1 := by
  unfold SSHExecutor.get_commands_results SSHExecutor.connect
  rw [h]
  exact ⟨rfl, rfl⟩

/-- C1 witness at a concrete world. -/
theorem c1_witness :
    ((SSHExecutor.init
        (HostCredentials.init "10.0.0.1" "bob" (some "secret") none)).get_commands_results
      (faultWorld "10.0.0.1")).2 = .error "Connection refused" :=
  (c1_theorem
    (SSHExecutor.init (HostCredentials.init "10.0.0.1" "bob" (some "secret") none))
    (faultWorld "10.0.0.1") "Connection refused" rfl).1

/-- C2: for every input line whose address text has an octet greater
than 255 or does not consist of exactly four dotted groups, credential
parsing fails with a ValueError, even when the line otherwise matches the
word-and-digit character pattern: the extracted address undergoes a
second semantic validation pass beyond the regex match. -/
theorem c2_theorem (gs : List (List Char)) (u p : List Char)
    (hgs : ∀ g ∈ gs, g ≠ [] ∧ g.all isDigitChar = true)
    (hu : u.all isWordChar = true) (hune : u ≠ [])
    (hp : p.all isWordChar = true) (hpne : p ≠ [])
    (hbad : (∃ g ∈ gs, 255 < digitsToNat g) ∨ gs.length ≠ 4) :
    ∃ e, get_host_credentials_from_line
      ((joinDots gs ++ ',' :: ' ' :: (u ++ '/' :: p)).asString) = .error e := by
  by_cases hshape : gs.length = 4 ∧ ∀ g ∈ gs, g.length ≤ 3
  · obtain ⟨hlen4, hshort⟩ := hshape
    have hbig : ∃ g ∈ gs, 255 < digitsToNat g := by
      rcases hbad with h | h
      · exact h
      · exact absurd hlen4 h
    match gs, hgs, hshort, hbig with
    | [g1, g2, g3, g4], hgs, hshort, hbig =>
      rw [show joinDots [g1, g2, g3, g4] ++ ',' :: ' ' :: (u ++ '/' :: p) =
        buildLine g1 g2 g3 g4 u p [] from by simp [joinDots, buildLine]]
      refine ⟨_, parse_big_octet_err g1 g2 g3 g4 u p ?_ hu hune hp hpne hbig⟩
      intro g hg
      refine ⟨(hgs g hg).2, ?_, hshort g hg⟩
      have hne := (hgs g hg).1
      match g, hne with
      | a :: g, _ => simp
  · refine ⟨_, parse_join_err gs (u ++ '/' :: p) (fun g hg => (hgs g hg).2) ?_⟩
    by_cases hlen : gs.length = 4
    · right
      push_neg at hshape
      obtain ⟨g, hg, hlong⟩ := hshape hlen
      exact ⟨g, hg, by omega⟩
    · left
      exact hlen

/-- C2 witness: the line 999.0.0.1, bob/pw matches the character pattern
but fails the semantic validation pass. -/
theorem c2_witness :
    ∃ e, get_host_credentials_from_line
      ((joinDots [['9', '9', '9'], ['0'], ['0'], ['1']] ++ ',' :: ' ' ::
        (['b', 'o', 'b'] ++ '/' :: ['p', 'w'])).asString) = .error e :=
  c2_theorem [['9', '9', '9'], ['0'], ['0'], ['1']] ['b', 'o', 'b'] ['p', 'w']
    (by decide) (by decide) (by decide) (by decide) (by decide) (by decide)

/-- C3: for every well-formed line a.b.c.d, user/pass with each octet
the canonical decimal text of an integer in [0, 255], the username and
password nonempty word texts, and trailing content not extending the
password, parsing succeeds and yields credentials whose address, username
and password equal the corresponding parts of the line; matching is
anchored at the start and the trailing content is ignored. -/
theorem c3_theorem (g1 g2 g3 g4 u p t : List Char)
    (h1 : isOctetText g1 = true) (h2 : isOctetText g2 = true)
    (h3 : isOctetText g3 = true) (h4 : isOctetText g4 = true)
    (hu : u.all isWordChar = true) (hune : u ≠ [])
    (hp : p.all isWordChar = true) (hpne : p ≠ [])
    (ht : ∀ x, t.head? = some x → isWordChar x = false) :
    get_host_credentials_from_line (buildLine g1 g2 g3 g4 u p t).asString =
      .ok (HostCredentials.init (g1 ++ '.' :: g2 ++ '.' :: g3 ++ '.' :: g4).asString
        u.asString (some p.asString) none) :=
  parse_build_ok g1 g2 g3 g4 u p t h1 h2 h3 h4 hu hune hp hpne ht

/-- C3 witness at a concrete well-formed line with trailing content. -/
theorem c3_witness :
    get_host_credentials_from_line
      (buildLine ['1', '0'] ['0'] ['0'] ['1'] ['b', 'o', 'b']
        ['s', 'e', 'c', 'r', 'e', 't'] [' ', 'x']).asString =
      .ok (HostCredentials.init
        ((['1', '0'] : List Char) ++ '.' :: ['0'] ++ '.' :: ['0'] ++ '.' :: ['1']).asString
        (['b', 'o', 'b'] : List Char).asString
        (some (['s', 'e', 'c', 'r', 'e', 't'] : List Char).asString) none) :=
  c3_theorem ['1', '0'] ['0'] ['0'] ['1'] ['b', 'o', 'b'] ['s', 'e', 'c', 'r', 'e', 't']
    [' ', 'x'] (by decide) (by decide) (by decide) (by decide) (by decide) (by decide)
    (by decide) (by decide) (fun x hx => by simp at hx; rw [← hx]; rfl)

/-- C4: every CheckResult the per-host check returns has an empty
commandResults mapping unless its status is Success; in particular the
authentication-error and timeout classifications carry empty results. -/
theorem c4_theorem (ex : SSHExecutor) (w : HostWorld) (tr : List SessionEvent)
    (r : CheckResult) (h : ex.get_commands_results w = (tr, .ok r))
    (hs : r.status ≠ "Success") : r.result = [] := by
  unfold SSHExecutor.get_commands_results SSHExecutor.connect at h
  cases hw : w.connect with
  | ok =>
    rw [hw] at h
    simp only [Prod.mk.injEq, Except.ok.injEq] at h
    rw [← h.2] at hs
    simp at hs
  | authError m =>
    rw [hw] at h
    simp only [Prod.mk.injEq, Except.ok.injEq] at h
    rw [← h.2]
  | timeoutErr m =>
    rw [hw] at h
    simp only [Prod.mk.injEq, Except.ok.injEq] at h
    rw [← h.2]
  | otherError m =>
    rw [hw] at h
    simp at h

/-- C4 witness: the authentication-error classification at a concrete
world carries an empty results mapping. -/
theorem c4_witness : (CheckResult.mk "Authentication error" []).result = [] :=
  c4_theorem
    (SSHExecutor.init (HostCredentials.init "10.0.0.1" "bob" (some "secret") none))
    authWorld [.connectAttempt, .closeClient] (CheckResult.mk "Authentication error" [])
    rfl (by decide)

/-- C5: on every per-host check the client is closed exactly once,
whatever the connect outcome and whatever the commands do, and the close
is the last action of the check. -/
theorem c5_theorem (ex : SSHExecutor) (w : HostWorld) :
    (ex.get_commands_results w).1.count .closeClient = 1 ∧
    (ex.get_commands_results w).1.getLast? = some .closeClient := by
  unfold SSHExecutor.get_commands_results SSHExecutor.connect
  cases w.connect with
  | ok =>
    constructor
    · simp only [List.count_cons, List.count_append]
      have hmap : (ex.commands.map
          (fun c => SessionEvent.execCommand c.command_name)).count .closeClient = 0 := by
        rw [List.count_eq_zero]
        intro hmem
        obtain ⟨d, _, hd⟩ := List.mem_map.mp hmem
        cases hd
      rw [hmap]
      rfl
    · rw [show SessionEvent.connectAttempt ::
        (ex.commands.map (fun c => SessionEvent.execCommand c.command_name) ++
          [SessionEvent.closeClient]) =
        (SessionEvent.connectAttempt ::
          ex.commands.map (fun c => SessionEvent.execCommand c.command_name)) ++
          [SessionEvent.closeClient] from rfl]
      exact List.getLast?_concat _
  | authError m => exact ⟨rfl, rfl⟩
  | timeoutErr m => exact ⟨rfl, rfl⟩
  | otherError m => exact ⟨rfl, rfl⟩

/-- C6: a command whose channel fails to open yields output None with a
nonempty descriptive error and does not raise; every command of the set,
the failing one included, keeps its own entry in the results mapping,
and a command whose channel opens gets its captured stdout and stderr. -/
theorem c6_theorem (w : HostWorld) (host : HostCredentials) (timeout : Nat)
    (cmds : List Command) (c : Command) (msg : String)
    (hnd : nodupNames cmds) (hc : c ∈ cmds) (hf : w.exec c = .sshError msg) :
    (SSHExecutor.execute_command w c).output = none ∧
    (SSHExecutor.execute_command w c).error ≠ "" ∧
    dictGet (SSHExecutor.execute_commands ⟨host, timeout, cmds⟩ w) c.command_name =
      some (SSHExecutor.execute_command w c) ∧
    (∀ d ∈ cmds,
      dictGet (SSHExecutor.execute_commands ⟨host, timeout, cmds⟩ w) d.command_name =
        some (SSHExecutor.execute_command w d)) ∧
    (∀ d o e2, w.exec d = .opened o e2 →
      SSHExecutor.execute_command w d = { output := some o, error := e2 }) := by
  refine ⟨?_, ?_, ?_, ?_, ?_⟩
  · unfold SSHExecutor.execute_command
    rw [hf]
  · unfold SSHExecutor.execute_command
    rw [hf]
    exact string_ne_empty_of_data _
      (string_append_data_ne _ _ (string_append_data_ne _ _
        (string_append_data_ne _ _ (by decide))))
  · rw [execute_commands_map w host timeout cmds hnd]
    exact dictGet_map_of_mem w cmds c hnd hc
  · intro d hd
    rw [execute_commands_map w host timeout cmds hnd]
    exact dictGet_map_of_mem w cmds d hnd hd
  · intro d o e2 hde
    unfold SSHExecutor.execute_command
    rw [hde]

/-- C6 witness: in a concrete world where the Storage channel fails, its
result has output None. -/
theorem c6_witness :
    (SSHExecutor.execute_command execFailWorld ⟨"Storage", "df -h /"⟩).output = none :=
  (c6_theorem execFailWorld (HostCredentials.init "10.0.0.1" "bob" (some "secret") none) 5
    [⟨"Storage", "df -h /"⟩, ⟨"Uptime", "uptime"⟩] ⟨"Storage", "df -h /"⟩ "channel failure"
    (by decide) (by decide) (by decide)).1

/-- C8: a line that fails to parse is skipped by the credential stream:
the credentials of a host list with one bad line are exactly those of
the same list without it, so every subsequent well-formed line still
yields its credential and the run is not aborted. -/
theorem c8_theorem (pre post : List String) (bad : String) (c : String)
    (hbad : ∀ h, get_host_credentials_from_line bad ≠ .ok h) :
    get_host_credentials (some (pre ++ bad :: post)) c =
      get_host_credentials (some (pre ++ post)) c := by
  unfold get_host_credentials get_active_hosts get_hosts
  simp only [Except.map, Except.ok.injEq]
  rw [creds_skip_bad pre post bad c hbad, activeLines_append, credsOfLines_append]

/-- C8 witness: a malformed middle line is skipped and the following
well-formed line still yields its credential. -/
theorem c8_witness :
    get_host_credentials
        (some (["10.0.0.1, bob/secret"] ++ "not-a-host-line" :: ["10.0.0.2, alice/pw"])) ";" =
      get_host_credentials (some (["10.0.0.1, bob/secret"] ++ ["10.0.0.2, alice/pw"])) ";" :=
  c8_theorem ["10.0.0.1, bob/secret"] ["10.0.0.2, alice/pw"] "not-a-host-line" ";"
    (fun h he => by rw [parse_line_notahost] at he; cases he)

/-- C9: every line beginning with the comment marker is filtered out
upstream and never reaches the credential parser; every other line is
passed through unchanged, so the parsed stream is computed from exactly
the filtered lines. -/
theorem c9_theorem (lines : List String) (c : String) :
    get_active_hosts (some lines) c = .ok (lines.filter (fun l => !strStartsWith l c)) ∧
    (∀ l ∈ activeLines c lines, strStartsWith l c = false) ∧
    get_host_credentials (some lines) c =
      .ok (credsOfLines (lines.filter (fun l => !strStartsWith l c))) := by
  refine ⟨?_, ?_, ?_⟩
  · unfold get_active_hosts get_hosts
    simp only [Except.map]
    rw [activeLines_eq_filter]
  · intro l hl
    rw [activeLines_eq_filter] at hl
    have hmem := List.of_mem_filter hl
    simpa using hmem
  · unfold get_host_credentials get_active_hosts get_hosts
    simp only [Except.map]
    rw [activeLines_eq_filter]

/-- C10: every credential the line parser produces carries no private
key material: private_key_file and private_key are both None. -/
theorem c10_theorem (line : String) (h : HostCredentials)
    (hok : get_host_credentials_from_line line = .ok h) :
    h.private_key_file = none ∧ h.private_key = none := by
  unfold get_host_credentials_from_line at hok
  split at hok
  · cases hok
  · dsimp only at hok
    split at hok
    · injection hok with he
      rw [← he]
      exact ⟨rfl, rfl⟩
    · cases hok
  · cases hok

/-- C10 witness at a concrete parsed line. -/
theorem c10_witness :
    (HostCredentials.init "10.0.0.1" "bob" (some "secret") none).private_key_file = none ∧
    (HostCredentials.init "10.0.0.1" "bob" (some "secret") none).private_key = none :=
  c10_theorem "10.0.0.1, bob/secret"
    (HostCredentials.init "10.0.0.1" "bob" (some "secret") none) parse_line_bob
